import Mathlib

/-!
Verification of the neo2nix mapper/writer (`src/neonix/io/nixio.py`).

The module maps an in-memory tree of neo objects (Block / Segment) onto a
persisted tree of nix objects (Block / Group).  We embed the two parallel
object shapes, the structural-equivalence predicate `NixIO._equals`, and the
two write operations `NixIO.write_block` / `NixIO.write_segment`, and prove
the specified properties about them.

Python conventions modelled explicitly:
* an attribute fetched with `getattr(obj, a, None)` is an `Option String`
  (`none` stands for both an absent attribute and the value `None`);
* `len(None)` raises `TypeError`; a fallible computation returns
  `Except PyError`;
* the store opened at `self.filename` is a list of root nix blocks; whether
  the handle opened by an operation was closed is recorded explicitly.
-/

/-- Python exceptions that the embedded code can raise. -/
inductive PyError where
  | typeError
  | lookupError (msg : String)
deriving Repr, DecidableEq

/-- A neo object: `name`, `description`, and the `segments` child collection
(`none` when the object has no such attribute — e.g. a neo Segment). -/
inductive NeoObj where
  | mk (name description : Option String) (segments : Option (List NeoObj))

/-- A nix object: `name`, `definition`, `type`, and the `groups` child
collection (`none` when absent — e.g. a nix Group has no `groups`). -/
inductive NixObj where
  | mk (name definition : Option String) (type : String)
      (groups : Option (List NixObj))

def NeoObj.name : NeoObj → Option String
  | .mk n _ _ => n

def NeoObj.description : NeoObj → Option String
  | .mk _ d _ => d

def NeoObj.segments : NeoObj → Option (List NeoObj)
  | .mk _ _ s => s

def NixObj.name : NixObj → Option String
  | .mk n _ _ _ => n

def NixObj.definition : NixObj → Option String
  | .mk _ d _ _ => d

def NixObj.type : NixObj → String
  | .mk _ _ t _ => t

def NixObj.groups : NixObj → Option (List NixObj)
  | .mk _ _ _ g => g

/-- The loop over `attribute_mappings = {name: name, description: definition}`
in `NixIO._equals`: every mapped attribute pair must hold equal values. -/
def attrsEqual (neo : NeoObj) (nix : NixObj) : Bool :=
  neo.name == nix.name && neo.description == nix.definition

mutual

/-- Embedding of `NixIO._equals(neo_obj, nix_obj, cascade)`.

Attribute pairs are compared first (mismatch returns `False` at once).  If
`cascade`, the container pair `segments`/`groups` is fetched; when both are
`None` the container comparison is skipped; when both are present, unequal
lengths return `False` and otherwise the children are compared pairwise by
a recursive call that uses the DEFAULT `cascade=True`; when exactly one side
is `None`, `len(None)` raises `TypeError`. -/
def equals : NeoObj → NixObj → Bool → Except PyError Bool
  | .mk nm ds sg, nix, cascade =>
    if !(attrsEqual (.mk nm ds sg) nix) then .ok false
    else
      match cascade, sg, nix.groups with
      | false, _, _ => .ok true
      | true, none, none => .ok true
      | true, some nl, some gl =>
        if nl.length != gl.length then .ok false
        else equalsList nl gl
      | true, _, _ => .error .typeError

/-- The `zip` loop over the two child collections in `NixIO._equals`
(reached only when the lengths are equal). -/
def equalsList : List NeoObj → List NixObj → Except PyError Bool
  | [], _ => .ok true
  | _ :: _, [] => .ok true
  | n :: ns, g :: gs =>
    match equals n g true with
    | .error e => .error e
    | .ok false => .ok false
    | .ok true => equalsList ns gs

end

/-- Pairwise comparison of paired children on direct attributes only
(helper for `equalsDepthLimited`). -/
def shallowList : List NeoObj → List NixObj → Except PyError Bool
  | [], _ => .ok true
  | _ :: _, [] => .ok true
  | n :: ns, g :: gs =>
    match equals n g false with
    | .error e => .error e
    | .ok false => .ok false
    | .ok true => shallowList ns gs

/-- The comparison as the spec describes it for claim C1: identical to
`equals` except that the paired children are compared by a NON-cascading
recursive call, i.e. on their direct attributes only.  This is a spec-side
definition used to contrast the claimed behaviour with the source's. -/
def equalsDepthLimited (neo : NeoObj) (nix : NixObj) (cascade : Bool) :
    Except PyError Bool :=
  if !(attrsEqual neo nix) then .ok false
  else
    match cascade, neo.segments, nix.groups with
    | false, _, _ => .ok true
    | true, none, none => .ok true
    | true, some nl, some gl =>
      if nl.length != gl.length then .ok false
      else shallowList nl gl
    | true, _, _ => .error .typeError

mutual

/-- Depth of a neo object tree: number of nested present `segments`
collections along the deepest path. -/
def NeoObj.depth : NeoObj → Nat
  | .mk _ _ none => 0
  | .mk _ _ (some l) => 1 + depthList l

/-- Maximal depth of the members of a list of neo objects. -/
def depthList : List NeoObj → Nat
  | [] => 0
  | x :: xs => max x.depth (depthList xs)

end

mutual

/-- `NixIO._equals` as an unbounded-recursion procedure with explicit fuel:
`none` means the fuel ran out before the comparison finished.  Used to state
that the source's recursion terminates on every finite tree. -/
def equalsFuel : Nat → NeoObj → NixObj → Bool → Option (Except PyError Bool)
  | 0, _, _, _ => none
  | f + 1, .mk nm ds sg, nix, cascade =>
    if !(attrsEqual (.mk nm ds sg) nix) then some (.ok false)
    else
      match cascade, sg, nix.groups with
      | false, _, _ => some (.ok true)
      | true, none, none => some (.ok true)
      | true, some nl, some gl =>
        if nl.length != gl.length then some (.ok false)
        else equalsListFuel f nl gl
      | true, _, _ => some (.error .typeError)

/-- Fuelled version of the child-pair loop of `NixIO._equals`. -/
def equalsListFuel : Nat → List NeoObj → List NixObj → Option (Except PyError Bool)
  | _, [], _ => some (.ok true)
  | _, _ :: _, [] => some (.ok true)
  | f, n :: ns, g :: gs =>
    match equalsFuel f n g true with
    | none => none
    | some (.error e) => some (.error e)
    | some (.ok false) => some (.ok false)
    | some (.ok true) => equalsListFuel f ns gs

end

/-- Result of one write operation: the root blocks of the store at
`self.filename` after the call, the Python exception it raised (if any), and
whether the `nix.File` handle opened by THIS call was closed before the call
ended. -/
structure WriteResult where
  blocks : List NixObj
  error : Option PyError
  fileClosed : Bool

/-- `'{}'.format(x)` for an optional string attribute: Python renders `None`
as the text `None`. -/
def pyStr : Option String → String
  | none => "None"
  | some s => s

/-- The `LookupError` message built in `NixIO.write_segment`. -/
def lookupMsg (parent_block segment : NeoObj) (filename : String) : String :=
  "Parent block with name '" ++ pyStr parent_block.name ++
    "' for segment with name '" ++ pyStr segment.name ++
    "' does not exist in file '" ++ filename ++ "'."

/-- The nix group created for a neo segment: `create_group(name, "neo.segment")`
followed by setting `definition`.  A nix Group has no `groups` attribute. -/
def segToGroup (segment : NeoObj) : NixObj :=
  .mk segment.name segment.description "neo.segment" none

/-- `create_group` on a nix block appends the new group to the block's
`groups` container (nix blocks always carry one; `getD` covers the vacuous
absent case). -/
def create_group (b g : NixObj) : NixObj :=
  .mk b.name b.definition b.type (some (b.groups.getD [] ++ [g]))

/-- The scan condition in `NixIO.write_segment`:
`NixIO._equals(parent_block, nix_block, False)`.  With `cascade=False` the
comparison is total, so the error branch is unreachable. -/
def matchesParent (parent_block : NeoObj) (b : NixObj) : Bool :=
  match equals parent_block b false with
  | .ok t => t
  | .error _ => false

/-- Embedding of `NixIO.write_segment(segment, parent_block)` acting on the
store contents `st` at `filename`.

The file is opened in ReadWrite mode; the roots are scanned in order and on
the first `nix_block` equivalent (non-cascading) to `parent_block` the code
REBINDS `nix_block = nix_file.blocks[0]` and creates the group under that
first root, then breaks; if no root matches, a `LookupError` is raised and —
since the `raise` precedes `nix_file.close()` — the handle is left open. -/
def write_segment (filename : String) (segment parent_block : NeoObj)
    (st : List NixObj) : WriteResult :=
  match st with
  | b0 :: rest =>
    if (b0 :: rest).any (matchesParent parent_block) then
      { blocks := create_group b0 (segToGroup segment) :: rest
        error := none
        fileClosed := true }
    else
      { blocks := b0 :: rest
        error := some (.lookupError (lookupMsg parent_block segment filename))
        fileClosed := false }
  | [] =>
    { blocks := []
      error := some (.lookupError (lookupMsg parent_block segment filename))
      fileClosed := false }

/-- The `for segment in neo_block.segments` loop of `NixIO.write_block`:
threads the store contents through the successive `write_segment` calls,
stopping at the first raised exception. -/
def writeSegments (filename : String) (parent_block : NeoObj) :
    List NeoObj → List NixObj → List NixObj × Option PyError
  | [], st => (st, none)
  | s :: rest, st =>
    let r := write_segment filename s parent_block st
    match r.error with
    | some e => (r.blocks, some e)
    | none => writeSegments filename parent_block rest r.blocks

/-- Embedding of `NixIO.write_block(neo_block, cascade)` at `filename`.

The file is opened in Overwrite mode, so the prior store contents are
destroyed; one root block is created with the mapped attributes; if
`cascade`, every child segment is written in order via `write_segment`
(iterating an absent `segments` collection would raise `TypeError`); the
handle is closed at the end, skipped when an exception propagates. -/
def write_block (filename : String) (prior : List NixObj) (neo_block : NeoObj)
    (cascade : Bool) : WriteResult :=
  let root : NixObj := .mk neo_block.name neo_block.description "neo.block" (some [])
  let st0 : List NixObj := [root]
  if cascade then
    match neo_block.segments with
    | none => { blocks := st0, error := some .typeError, fileClosed := false }
    | some segs =>
      match writeSegments filename neo_block segs st0 with
      | (st, none) => { blocks := st, error := none, fileClosed := true }
      | (st, some e) => { blocks := st, error := some e, fileClosed := false }
  else
    { blocks := st0, error := none, fileClosed := true }

/-- With `cascade=False`, `NixIO._equals` is exactly the mapped-attribute
comparison and never raises. -/
lemma equals_false (neo : NeoObj) (nix : NixObj) :
    equals neo nix false = .ok (attrsEqual neo nix) := by
  cases neo with
  | mk nm ds sg =>
    simp only [equals]
    cases h : attrsEqual (.mk nm ds sg) nix <;> simp

/-- The scan condition of `write_segment` is the mapped-attribute
comparison. -/
lemma matchesParent_eq (p : NeoObj) (b : NixObj) :
    matchesParent p b = attrsEqual p b := by
  simp [matchesParent, equals_false]

/-- The mapped-attribute comparison holds exactly when `name = name` and
`description = definition` (absent values included, as `none`). -/
lemma attrsEqual_iff (neo : NeoObj) (nix : NixObj) :
    attrsEqual neo nix = true ↔
      (neo.name = nix.name ∧ neo.description = nix.definition) := by
  simp [attrsEqual]

/-- A root whose attributes were copied from a neo node compares equal to
that node on the mapped attributes. -/
lemma attrsEqual_root (parent : NeoObj) (ty : String) (g : Option (List NixObj)) :
    attrsEqual parent (.mk parent.name parent.description ty g) = true := by
  simp [attrsEqual, NixObj.name, NixObj.definition]

/-- When the child-pair loop of `NixIO._equals` returns `True`, every zipped
child pair satisfied the recursive call — which cascades, since the call
uses the default `cascade=True`. -/
lemma equalsList_ok :
    ∀ (nl : List NeoObj) (gl : List NixObj), equalsList nl gl = .ok true →
      ∀ p ∈ nl.zip gl, equals p.1 p.2 true = .ok true := by
  intro nl
  induction nl with
  | nil => intro gl _ p hp; simp at hp
  | cons n ns ih =>
    intro gl h p hp
    cases gl with
    | nil => simp at hp
    | cons g gs =>
      rw [List.zip_cons_cons, List.mem_cons] at hp
      simp only [equalsList] at h
      rcases he : equals n g true with e | b
      · rw [he] at h; exact absurd h (by simp)
      · rw [he] at h
        cases b
        · exact absurd h (by simp)
        · rcases hp with hp | hp
          · rw [hp]; exact he
          · exact ih gs h p hp

/-- Writing a list of segments into a store holding exactly the root created
from their parent appends the mapped groups to that root, in order. -/
lemma writeSegments_root (filename : String) (parent : NeoObj) :
    ∀ (segs : List NeoObj) (gl : List NixObj),
      writeSegments filename parent segs
          [.mk parent.name parent.description "neo.block" (some gl)] =
        ([.mk parent.name parent.description "neo.block"
            (some (gl ++ segs.map segToGroup))], none) := by
  intro segs
  induction segs with
  | nil => intro gl; simp [writeSegments]
  | cons s rest ih =>
    intro gl
    have hany : [NixObj.mk parent.name parent.description "neo.block" (some gl)].any
        (matchesParent parent) = true := by
      simp [matchesParent_eq, attrsEqual_root]
    simp only [writeSegments, write_segment, hany, if_true]
    simp only [create_group, NixObj.name, NixObj.definition, NixObj.type,
      NixObj.groups, Option.getD]
    rw [ih (gl ++ [segToGroup s])]
    simp

/-- Any fuel beyond the depth of the neo tree computes the same result as the
structurally recursive `equals`: the recursion of `NixIO._equals` strictly
descends the source tree. -/
lemma equalsFuel_sound : ∀ f : Nat,
    (∀ (neo : NeoObj) (nix : NixObj) (c : Bool), NeoObj.depth neo < f →
      equalsFuel f neo nix c = some (equals neo nix c)) ∧
    (∀ (nl : List NeoObj) (gl : List NixObj), depthList nl < f →
      equalsListFuel f nl gl = some (equalsList nl gl)) := by
  intro f
  induction f with
  | zero =>
    exact ⟨fun _ _ _ h => absurd h (Nat.not_lt_zero _),
           fun _ _ h => absurd h (Nat.not_lt_zero _)⟩
  | succ f ih =>
    have hP : ∀ (neo : NeoObj) (nix : NixObj) (c : Bool), NeoObj.depth neo < f + 1 →
        equalsFuel (f + 1) neo nix c = some (equals neo nix c) := by
      intro neo nix c hd
      cases neo with
      | mk nm ds sg =>
        cases nix with
        | mk nm' ds' ty gs =>
          cases c
          · simp only [equalsFuel, equals, NixObj.groups]
            split <;> rfl
          · cases sg with
            | none =>
              cases gs <;>
                · simp only [equalsFuel, equals, NixObj.groups]
                  split <;> rfl
            | some nl =>
              cases gs with
              | none =>
                simp only [equalsFuel, equals, NixObj.groups]
                split <;> rfl
              | some gl =>
                simp only [equalsFuel, equals, NixObj.groups]
                split
                · rfl
                · split
                  · rfl
                  · refine ih.2 nl gl ?_
                    have hdepth : NeoObj.depth (.mk nm ds (some nl)) =
                        1 + depthList nl := rfl
                    rw [hdepth] at hd
                    omega
    refine ⟨hP, ?_⟩
    intro nl
    induction nl with
    | nil => intro gl _; cases gl <;> rfl
    | cons n ns ihl =>
      intro gl hd
      cases gl with
      | nil => rfl
      | cons g gs =>
        have hdn : NeoObj.depth n < f + 1 :=
          lt_of_le_of_lt (le_max_left _ _) (by simpa [depthList] using hd)
        have hdns : depthList ns < f + 1 :=
          lt_of_le_of_lt (le_max_right _ _) (by simpa [depthList] using hd)
        simp only [equalsListFuel, equalsList, hP n g true hdn]
        cases equals n g true with
        | error e => rfl
        | ok b => cases b <;> [rfl; exact ihl gs hdns]

/-- Claim C1, counterexample: with child collections present on both sides,
attribute-equal child pairs do NOT suffice for `cascade=True` equivalence —
the recursive call descends into the children's own collections.  Here the
one child pair agrees on name and description/definition but the grandchild
names differ, so `_equals` returns `False`, while the spec's depth-limited
comparison would return `True`. -/
theorem claim_C1_counterexample :
    equals (.mk (some "B") (some "d")
        (some [.mk (some "S") (some "x") (some [.mk (some "u") none none])]))
      (.mk (some "B") (some "d") "neo.block"
        (some [.mk (some "S") (some "x") "neo.group"
          (some [.mk (some "v") none "neo.group" none])])) true = .ok false ∧
    equalsDepthLimited (.mk (some "B") (some "d")
        (some [.mk (some "S") (some "x") (some [.mk (some "u") none none])]))
      (.mk (some "B") (some "d") "neo.block"
        (some [.mk (some "S") (some "x") "neo.group"
          (some [.mk (some "v") none "neo.group" none])])) true = .ok true :=
  ⟨rfl, rfl⟩

/-- Claim C1, amended: the recursive call on paired children re-enters with
the default `cascade=True`, so a `True` result at the parent forces every
zipped child pair to be equivalent under the fully cascading comparison —
full recursive equivalence, not a depth-limited one. -/
theorem claim_C1_amended (nm ds : Option String) (nl : List NeoObj)
    (nm' ds' : Option String) (ty : String) (gl : List NixObj)
    (h : equals (.mk nm ds (some nl)) (.mk nm' ds' ty (some gl)) true = .ok true) :
    ∀ p ∈ nl.zip gl, equals p.1 p.2 true = .ok true := by
  simp only [equals, NixObj.groups] at h
  split at h
  · exact absurd h (by simp)
  · split at h
    · exact absurd h (by simp)
    · exact equalsList_ok nl gl h

/-- Claim C1, witness for the amended theorem: a two-level pair of trees
that `_equals` accepts, whose single child pair is itself accepted by the
cascading call. -/
theorem claim_C1_witness :
    equals (.mk (some "B") none
        (some [.mk (some "S") none (some [.mk (some "T") none none])]))
      (.mk (some "B") none "neo.block"
        (some [.mk (some "S") none "neo.group"
          (some [.mk (some "T") none "neo.group" none])])) true = .ok true ∧
    equals (.mk (some "S") none (some [.mk (some "T") none none]))
      (.mk (some "S") none "neo.group"
        (some [.mk (some "T") none "neo.group" none])) true = .ok true :=
  ⟨rfl,
    claim_C1_amended (some "B") none
      [.mk (some "S") none (some [.mk (some "T") none none])]
      (some "B") none "neo.block"
      [.mk (some "S") none "neo.group"
        (some [.mk (some "T") none "neo.group" none])] rfl
      (.mk (some "S") none (some [.mk (some "T") none none]),
       .mk (some "S") none "neo.group"
        (some [.mk (some "T") none "neo.group" none]))
      (by simp)⟩

/-- Claim C2 (code bug): `write_segment` closes the store handle on the
successful path, but on the no-matching-root path the `LookupError` is
raised BEFORE `nix_file.close()`, so the handle is left open — the
guaranteed close on every exit path that the spec requires does not hold. -/
theorem claim_C2_code_bug :
    (write_segment "/tmp/rec.h5" (.mk (some "S1") none none)
        (.mk (some "B1") none (some [])) []).error =
      some (.lookupError
        "Parent block with name 'B1' for segment with name 'S1' does not exist in file '/tmp/rec.h5'.") ∧
    (write_segment "/tmp/rec.h5" (.mk (some "S1") none none)
        (.mk (some "B1") none (some [])) []).fileClosed = false ∧
    (write_segment "/tmp/rec.h5" (.mk (some "S1") none none)
        (.mk (some "B1") none (some []))
        [.mk (some "B1") none "neo.block" (some [])]).fileClosed = true :=
  ⟨rfl, rfl, rfl⟩

/-- Claim C3, counterexample: with equal mapped attributes and the source's
`segments` present but the target's `groups` absent, `_equals` with
`cascade=True` raises `TypeError` (`len(None)`) instead of returning
`False`. -/
theorem claim_C3_counterexample :
    equals (.mk (some "A") (some "d") (some [])) (.mk (some "A") (some "d") "neo.block" none)
        true = .error .typeError ∧
    ¬ equals (.mk (some "A") (some "d") (some [])) (.mk (some "A") (some "d") "neo.block" none)
        true = .ok false :=
  ⟨rfl, fun h => Except.noConfusion h⟩

/-- Claim C3, amended: whenever exactly one of the two mapped child
collections is absent and all mapped attributes are equal,
`_equals(…, cascade=True)` raises `TypeError` rather than returning
`False`. -/
theorem claim_C3_amended (neo : NeoObj) (nix : NixObj)
    (hattrs : attrsEqual neo nix = true)
    (hone : neo.segments.isNone ≠ nix.groups.isNone) :
    equals neo nix true = .error .typeError := by
  cases neo with
  | mk nm ds sg =>
    cases nix with
    | mk nm' ds' ty gs =>
      simp only [NeoObj.segments, NixObj.groups] at hone
      cases sg <;> cases gs
      · exact absurd rfl hone
      · simp [equals, NixObj.groups, hattrs]
      · simp [equals, NixObj.groups, hattrs]
      · exact absurd rfl hone

/-- Claim C3, witness for the amended theorem: a node with `segments` absent
against a node with `groups` present, equal attributes, raising
`TypeError`. -/
theorem claim_C3_witness :
    attrsEqual (.mk (some "A") (some "d") none)
        (.mk (some "A") (some "d") "neo.block" (some [])) = true ∧
    (NeoObj.mk (some "A") (some "d") none).segments.isNone ≠
      (NixObj.mk (some "A") (some "d") "neo.block" (some [])).groups.isNone ∧
    equals (.mk (some "A") (some "d") none)
        (.mk (some "A") (some "d") "neo.block" (some [])) true =
      .error .typeError :=
  ⟨rfl, by decide,
    claim_C3_amended (.mk (some "A") (some "d") none)
      (.mk (some "A") (some "d") "neo.block" (some [])) rfl (by decide)⟩

/-- Claim C4, counterexample: the store holds roots A then B; the parent is
equivalent to B only, yet the new group is created under A (the code rebinds
to `blocks[0]` after the match) — not under the first root that satisfied
the equivalence check. -/
theorem claim_C4_counterexample :
    matchesParent (.mk (some "B") (some "db") none)
        (.mk (some "A") (some "da") "neo.block" (some [])) = false ∧
    matchesParent (.mk (some "B") (some "db") none)
        (.mk (some "B") (some "db") "neo.block" (some [])) = true ∧
    (write_segment "/tmp/rec2.h5" (.mk (some "S") (some "x") none)
        (.mk (some "B") (some "db") none)
        [.mk (some "A") (some "da") "neo.block" (some []),
         .mk (some "B") (some "db") "neo.block" (some [])]).blocks =
      [.mk (some "A") (some "da") "neo.block"
          (some [.mk (some "S") (some "x") "neo.segment" none]),
       .mk (some "B") (some "db") "neo.block" (some [])] :=
  ⟨rfl, rfl, rfl⟩

/-- Claim C4, amended: whenever SOME root is structurally equivalent
(attribute-only) to the parent block, `write_segment` creates the new group
under the store's FIRST root (`blocks[0]`), whichever root matched. -/
theorem claim_C4_amended (filename : String) (segment parent_block : NeoObj)
    (b0 : NixObj) (rest : List NixObj)
    (hmatch : ∃ b ∈ b0 :: rest, attrsEqual parent_block b = true) :
    write_segment filename segment parent_block (b0 :: rest) =
      { blocks := create_group b0 (segToGroup segment) :: rest
        error := none
        fileClosed := true } := by
  have hany : (b0 :: rest).any (matchesParent parent_block) = true := by
    rw [List.any_eq_true]
    rcases hmatch with ⟨b, hb, hab⟩
    exact ⟨b, hb, by rw [matchesParent_eq]; exact hab⟩
  simp [write_segment, hany]

/-- Claim C4, witness for the amended theorem: with roots A and B and a
parent matching only B, the group is appended under A, the first root. -/
theorem claim_C4_witness :
    (∃ b ∈ [NixObj.mk (some "A") (some "da") "neo.block" (some []),
            NixObj.mk (some "B") (some "db") "neo.block" (some [])],
      attrsEqual (.mk (some "B") (some "db") none) b = true) ∧
    write_segment "/tmp/w4.h5" (.mk (some "S") (some "x") none)
        (.mk (some "B") (some "db") none)
        [.mk (some "A") (some "da") "neo.block" (some []),
         .mk (some "B") (some "db") "neo.block" (some [])] =
      { blocks := create_group (.mk (some "A") (some "da") "neo.block" (some []))
            (segToGroup (.mk (some "S") (some "x") none)) ::
          [.mk (some "B") (some "db") "neo.block" (some [])]
        error := none
        fileClosed := true } :=
  ⟨⟨.mk (some "B") (some "db") "neo.block" (some []), by simp, rfl⟩,
    claim_C4_amended "/tmp/w4.h5" (.mk (some "S") (some "x") none)
      (.mk (some "B") (some "db") none)
      (.mk (some "A") (some "da") "neo.block" (some []))
      [.mk (some "B") (some "db") "neo.block" (some [])]
      ⟨.mk (some "B") (some "db") "neo.block" (some []), by simp, rfl⟩⟩

/-- Claim C5: when no root of the store is structurally equivalent
(attribute-only) to the parent block, `write_segment` raises the
`LookupError` whose message names the parent, the segment and the target
file, and the store's contents are unchanged — no node is created or
mutated. -/
theorem claim_C5 (filename : String) (segment parent_block : NeoObj)
    (st : List NixObj) (hno : ∀ b ∈ st, attrsEqual parent_block b = false) :
    write_segment filename segment parent_block st =
      { blocks := st
        error := some (.lookupError (lookupMsg parent_block segment filename))
        fileClosed := false } := by
  cases st with
  | nil => rfl
  | cons b0 rest =>
    have hany : (b0 :: rest).any (matchesParent parent_block) = false := by
      rw [List.any_eq_false]
      intro b hb
      rw [matchesParent_eq]
      simp [hno b hb]
    simp [write_segment, hany]

/-- Claim C5, witness: a store with one root A and a parent B matching no
root: the error carries the built message and the store is unchanged. -/
theorem claim_C5_witness :
    (∀ b ∈ [NixObj.mk (some "A") (some "da") "neo.block" (some [])],
      attrsEqual (.mk (some "B") (some "db") none) b = false) ∧
    write_segment "/tmp/w5.h5" (.mk (some "S") (some "x") none)
        (.mk (some "B") (some "db") none)
        [.mk (some "A") (some "da") "neo.block" (some [])] =
      { blocks := [.mk (some "A") (some "da") "neo.block" (some [])]
        error := some (.lookupError (lookupMsg (.mk (some "B") (some "db") none)
          (.mk (some "S") (some "x") none) "/tmp/w5.h5"))
        fileClosed := false } :=
  ⟨by decide,
    claim_C5 "/tmp/w5.h5" (.mk (some "S") (some "x") none)
      (.mk (some "B") (some "db") none)
      [.mk (some "A") (some "da") "neo.block" (some [])] (by decide)⟩

/-- Claim C6: writing a block with `cascade=True` leaves the store with a
single root carrying the mapped attributes, whose groups are exactly the
mapped images of the source segments in insertion order; index by index the
child's (name, definition) equals the segment's (name, description). -/
theorem claim_C6 (filename : String) (prior : List NixObj) (neo_block : NeoObj)
    (segs : List NeoObj) (hsegs : neo_block.segments = some segs)
    (hne : segs ≠ []) :
    (write_block filename prior neo_block true).error = none ∧
    (write_block filename prior neo_block true).fileClosed = true ∧
    (write_block filename prior neo_block true).blocks =
      [.mk neo_block.name neo_block.description "neo.block"
        (some (segs.map segToGroup))] ∧
    (segs.map segToGroup).length = segs.length ∧
    ∀ i : Nat, ((segs.map segToGroup)[i]?).map NixObj.name =
        (segs[i]?).map NeoObj.name ∧
      ((segs.map segToGroup)[i]?).map NixObj.definition =
        (segs[i]?).map NeoObj.description := by
  have hblk : write_block filename prior neo_block true =
      { blocks := [.mk neo_block.name neo_block.description "neo.block"
          (some (segs.map segToGroup))]
        error := none
        fileClosed := true } := by
    simp only [write_block, hsegs, if_true]
    rw [writeSegments_root filename neo_block segs []]
    simp
  refine ⟨by rw [hblk], by rw [hblk], by rw [hblk], by simp, ?_⟩
  intro i
  constructor <;>
    · rw [List.getElem?_map]
      cases segs[i]? <;> simp [segToGroup, NixObj.name, NixObj.definition]

/-- Claim C6, witness: the spec's round-trip scenario — block B1/d1 with
segments S1/x and S2/y written with cascade, giving one root with the two
mapped groups in order. -/
theorem claim_C6_witness :
    (NeoObj.mk (some "B1") (some "d1")
        (some [.mk (some "S1") (some "x") none,
               .mk (some "S2") (some "y") none])).segments =
      some [.mk (some "S1") (some "x") none, .mk (some "S2") (some "y") none] ∧
    [NeoObj.mk (some "S1") (some "x") none,
     NeoObj.mk (some "S2") (some "y") none] ≠ [] ∧
    (write_block "/tmp/w6.h5" []
        (.mk (some "B1") (some "d1")
          (some [.mk (some "S1") (some "x") none,
                 .mk (some "S2") (some "y") none])) true).error = none ∧
    (write_block "/tmp/w6.h5" []
        (.mk (some "B1") (some "d1")
          (some [.mk (some "S1") (some "x") none,
                 .mk (some "S2") (some "y") none])) true).blocks =
      [.mk (some "B1") (some "d1") "neo.block"
        (some ([NeoObj.mk (some "S1") (some "x") none,
                NeoObj.mk (some "S2") (some "y") none].map segToGroup))] :=
  have h := claim_C6 "/tmp/w6.h5" []
    (.mk (some "B1") (some "d1")
      (some [.mk (some "S1") (some "x") none, .mk (some "S2") (some "y") none]))
    [.mk (some "S1") (some "x") none, .mk (some "S2") (some "y") none]
    rfl (by simp)
  ⟨rfl, by simp, h.1, h.2.2.1⟩

/-- Claim C7: writing a block with `cascade=False` leaves the store — the
prior contents destroyed by the Overwrite open — holding exactly one root
with the mapped name and definition and an empty groups collection, and the
handle closed. -/
theorem claim_C7 (filename : String) (prior : List NixObj) (neo_block : NeoObj) :
    write_block filename prior neo_block false =
      { blocks := [.mk neo_block.name neo_block.description "neo.block" (some [])]
        error := none
        fileClosed := true } := rfl

/-- Claim C8: the non-cascading comparison returns `True` exactly when the
source's name equals the target's name and the source's description equals
the target's definition (absent values compared as `none`), and its result
does not depend on either node's child collection. -/
theorem claim_C8 (neo : NeoObj) (nix : NixObj) :
    (equals neo nix false = .ok true ↔
      (neo.name = nix.name ∧ neo.description = nix.definition)) ∧
    ∀ (sg : Option (List NeoObj)) (gl : Option (List NixObj)),
      equals (.mk neo.name neo.description sg)
          (.mk nix.name nix.definition nix.type gl) false = equals neo nix false := by
  constructor
  · rw [equals_false]
    simp [attrsEqual_iff]
  · intro sg gl
    rw [equals_false, equals_false]
    simp [attrsEqual, NeoObj.name, NeoObj.description, NixObj.name, NixObj.definition]

/-- Claim C9: the recursion of `NixIO._equals` terminates on every finite
tree — running the unbounded procedure with fuel one past the source tree's
depth never exhausts the fuel and computes the total function `equals`. -/
theorem claim_C9 (neo : NeoObj) (nix : NixObj) (cascade : Bool) :
    equalsFuel (NeoObj.depth neo + 1) neo nix cascade =
      some (equals neo nix cascade) :=
  (equalsFuel_sound (NeoObj.depth neo + 1)).1 neo nix cascade
    (Nat.lt_succ_self _)

/-- Claim C10: when both child collections are absent, the cascading
comparison skips the container loop entirely and equals the non-cascading
one: the result is the mapped-attribute comparison alone. -/
theorem claim_C10 (nm ds : Option String) (nm' ds' : Option String) (ty : String) :
    equals (.mk nm ds none) (.mk nm' ds' ty none) true =
      equals (.mk nm ds none) (.mk nm' ds' ty none) false ∧
    equals (.mk nm ds none) (.mk nm' ds' ty none) true =
      .ok (attrsEqual (.mk nm ds none) (.mk nm' ds' ty none)) := by
  rw [equals_false]
  constructor <;>
    · simp only [equals]
      cases h : attrsEqual (.mk nm ds none) (.mk nm' ds' ty none) <;>
        simp [NixObj.groups, h]
